/-
Verification of the TUI rendering core of the `mdr` markdown reader
(`src/backend/tui.rs`) against its natural-language specification.

The Rust code is shallowly embedded: `ratatui` spans/lines become lists of
styled character runs, machine integers (`usize`, `u16`) become `Nat`
(saturating subtraction on unsigned integers is exactly `Nat` subtraction;
no claim exercises wrap-around at the top of the integer range), and the
stateful render/search routines become pure functions threading their loop
state explicitly.  Rust's `str::to_lowercase` is modelled by per-character
`Char.toLower` (the claims only exercise its ASCII behaviour).
-/
import Mathlib

namespace Mdr

/-- Style tag carried by one styled run (`ratatui` `Span` styling collapsed
to the distinctions the TUI code itself creates). -/
inductive SpanKind
  | raw
  | code
  | bold
  | italic
  | strike
  | imageLabel
  | link
  deriving DecidableEq, Repr

/-- One styled run of text: `ratatui::text::Span` (its `content` string as a
character list plus the style it was created with). -/
structure Span where
  content : List Char
  kind : SpanKind
  deriving DecidableEq, Repr

/-- `ratatui::text::Line`: an ordered sequence of spans, one display row. -/
abbrev RLine := List Span

/-- Flattened text of a line: `line.spans.iter().map(|s| s.content.as_ref()).collect::<String>()`. -/
def flattenLine (l : RLine) : List Char :=
  (l.map Span.content).flatten

/-- `ContentElement` from `src/backend/tui.rs`: a single line element of the
rendered content.  The opaque `StatefulProtocol` handle of an `Image` is
irrelevant to every property proved here and is omitted; the stored alt text
and row height are kept. -/
inductive ContentElement
  | TextLine (line : RLine)
  | Image (alt : List Char) (height : Nat)
  | ImagePlaceholder (line : RLine)
  deriving DecidableEq, Repr

/-- `ContentElement::row_height`: the number of terminal rows the element
occupies. -/
def ContentElement.row_height : ContentElement → Nat
  | ContentElement.TextLine _ => 1
  | ContentElement.Image _ height => height
  | ContentElement.ImagePlaceholder _ => 1

/-- `total_content_rows`: total number of terminal rows occupied by all
content elements. -/
def total_content_rows (elements : List ContentElement) : Nat :=
  (elements.map (fun e => e.row_height)).sum

/-- Absolute row at which element `i` begins: the prefix sum of the row
heights of elements `[0..i)`. -/
def elemStart (elements : List ContentElement) (i : Nat) : Nat :=
  ((elements.take i).map (fun e => e.row_height)).sum

theorem elemStart_zero (es : List ContentElement) : elemStart es 0 = 0 := rfl

theorem elemStart_cons_succ (e : ContentElement) (es : List ContentElement) (i : Nat) :
    elemStart (e :: es) (i + 1) = e.row_height + elemStart es i := by
  simp [elemStart]

/-! ## String helpers

Rust `str::contains(&str)` is substring containment; modelled on character
lists. -/

/-- Does `needle` occur at the head of `hay`? -/
def startsWith : List Char → List Char → Bool
  | _, [] => true
  | [], _ :: _ => false
  | h :: hs, n :: ns => h = n && startsWith hs ns

/-- Substring containment, i.e. Rust `hay.contains(needle)`. -/
def containsSub : List Char → List Char → Bool
  | [], needle => needle.isEmpty
  | c :: t, needle => startsWith (c :: t) needle || containsSub t needle

/-! ## Search engine (`update_search_matches`) -/

/-- Loop body of `update_search_matches`: walk the elements accumulating the
absolute row offset; a `TextLine`/`ImagePlaceholder` whose flattened,
lowercased text contains the (already lowercased) query records its starting
row; an `Image` only advances the offset by its height. -/
def searchLoop : List ContentElement → List Char → Nat → List Nat
  | [], _, _ => []
  | ContentElement.TextLine line :: rest, ql, off =>
      if containsSub ((flattenLine line).map Char.toLower) ql then
        off :: searchLoop rest ql (off + 1)
      else
        searchLoop rest ql (off + 1)
  | ContentElement.Image _ height :: rest, ql, off =>
      searchLoop rest ql (off + height)
  | ContentElement.ImagePlaceholder line :: rest, ql, off =>
      if containsSub ((flattenLine line).map Char.toLower) ql then
        off :: searchLoop rest ql (off + 1)
      else
        searchLoop rest ql (off + 1)

/-- `update_search_matches` (its match-list computation): the previous match
list is discarded; an empty query produces no matches; otherwise the query
is lowercased once and the elements are scanned from row offset 0. -/
def update_search_matches (elements : List ContentElement) (query : List Char) : List Nat :=
  if query.isEmpty then []
  else searchLoop elements (query.map Char.toLower) 0

/-- Spec-side predicate (refinement target, worded from the spec): a
Text/Placeholder element matches a query iff its flattened text contains the
query as a case-insensitive substring; Block (`Image`) elements never match. -/
def elementMatchesQuery (q : List Char) : ContentElement → Bool
  | ContentElement.TextLine l => containsSub ((flattenLine l).map Char.toLower) (q.map Char.toLower)
  | ContentElement.Image _ _ => false
  | ContentElement.ImagePlaceholder l => containsSub ((flattenLine l).map Char.toLower) (q.map Char.toLower)

/-- Spec-side search result (refinement target, worded from the spec): the
list of starting absolute rows of the matching elements, in document
order. -/
def specSearchMatches (es : List ContentElement) (q : List Char) : List Nat :=
  ((List.range es.length).filter
    (fun i => elementMatchesQuery q (es.getD i (ContentElement.TextLine [])))).map (elemStart es)

/-! ## Heading navigator (`find_heading_row`) -/

/-- A TOC entry as consumed by the heading navigator (level and text; the
anchor slug is irrelevant here). -/
structure TocEntry where
  level : Nat
  text : List Char
  deriving DecidableEq, Repr

/-- Walk of `find_heading_row`: first Text/Placeholder element whose
flattened text contains `t` (case-sensitive) yields its starting row. -/
def findRow : List ContentElement → List Char → Nat → Option Nat
  | [], _, _ => none
  | ContentElement.TextLine line :: rest, t, off =>
      if containsSub (flattenLine line) t then some off
      else findRow rest t (off + 1)
  | ContentElement.Image _ height :: rest, t, off =>
      findRow rest t (off + height)
  | ContentElement.ImagePlaceholder line :: rest, t, off =>
      if containsSub (flattenLine line) t then some off
      else findRow rest t (off + 1)

/-- `find_heading_row`: look up the selected TOC entry (out-of-range index
gives `none` via `slice::get`), then walk the elements for its text. -/
def find_heading_row (elements : List ContentElement) (toc_entries : List TocEntry)
    (toc_index : Nat) : Option Nat :=
  match toc_entries.get? toc_index with
  | none => none
  | some entry => findRow elements entry.text 0

/-- Spec-side predicate (refinement target): does an element's flattened text
contain the heading text as a case-sensitive substring (Text/Placeholder
only)? -/
def elementMatchesHeading (t : List Char) : ContentElement → Bool
  | ContentElement.TextLine l => containsSub (flattenLine l) t
  | ContentElement.Image _ _ => false
  | ContentElement.ImagePlaceholder l => containsSub (flattenLine l) t

/-- Spec-side locate (refinement target, worded from the spec): the starting
absolute row of the first matching element, if any. -/
def specLocate (es : List ContentElement) (t : List Char) : Option Nat :=
  ((List.range es.length).find?
    (fun i => elementMatchesHeading t (es.getD i (ContentElement.TextLine [])))).map (elemStart es)

/-! ## Scroll controller (`ui` clamp and `render_content_elements`) -/

/-- The offset actually used by `ui`:
`max_scroll = total_rows.saturating_sub(content_height);
 scroll = app.scroll_offset.min(max_scroll)`. -/
def scrollUsed (requested total_rows content_height : Nat) : Nat :=
  min requested (total_rows - content_height)

/-- One widget placement produced by `render_content_elements`: the
element's absolute starting row, the viewport row it is drawn at, the number
of rows drawn, and whether it is an image. -/
structure RenderedItem where
  absRow : Nat
  y : Nat
  height : Nat
  isImage : Bool
  deriving DecidableEq, Repr

/-- The loop of `render_content_elements`, with its mutable state
(`rows_skipped`, `y_offset`, `absolute_row`) threaded explicitly.  The
widget drawing calls are abstracted to emitting a `RenderedItem`; the
search-highlight styling choices do not affect geometry and are omitted. -/
def renderLoop : List ContentElement → Nat → Nat → Nat → Nat → Nat → List RenderedItem
  | [], _, _, _, _, _ => []
  | e :: rest, rows_skipped, y_offset, absolute_row, available_height, scroll =>
    if available_height ≤ y_offset then []
    else
      let elem_height := e.row_height
      let current_absolute_row := absolute_row
      if rows_skipped + elem_height ≤ scroll then
        renderLoop rest (rows_skipped + elem_height) y_offset (absolute_row + elem_height)
          available_height scroll
      else
        let skip_within := scroll - rows_skipped
        match e with
        | ContentElement.TextLine _ =>
            if skip_within = 0 then
              ⟨current_absolute_row, y_offset, 1, false⟩ ::
                renderLoop rest (rows_skipped + elem_height) (y_offset + 1)
                  (absolute_row + elem_height) available_height scroll
            else
              renderLoop rest (rows_skipped + elem_height) y_offset
                (absolute_row + elem_height) available_height scroll
        | ContentElement.Image _ _ =>
            if 0 < skip_within then
              renderLoop rest (rows_skipped + elem_height) y_offset
                (absolute_row + elem_height) available_height scroll
            else
              let remaining := available_height - y_offset
              let render_height := min elem_height remaining
              if render_height = 0 then
                renderLoop rest (rows_skipped + elem_height) y_offset
                  (absolute_row + elem_height) available_height scroll
              else
                ⟨current_absolute_row, y_offset, render_height, true⟩ ::
                  renderLoop rest (rows_skipped + elem_height) (y_offset + render_height)
                    (absolute_row + elem_height) available_height scroll
        | ContentElement.ImagePlaceholder _ =>
            if skip_within = 0 then
              ⟨current_absolute_row, y_offset, 1, false⟩ ::
                renderLoop rest (rows_skipped + elem_height) (y_offset + 1)
                  (absolute_row + elem_height) available_height scroll
            else
              renderLoop rest (rows_skipped + elem_height) y_offset
                (absolute_row + elem_height) available_height scroll

/-- `render_content_elements`: start the loop with all counters at 0. -/
def render_content_elements (elements : List ContentElement) (scroll content_height : Nat) :
    List RenderedItem :=
  renderLoop elements 0 0 0 content_height scroll

/-! ## Image row-height formula (`build_content_elements`)

The Rust code computes, for a decoded image of pixel size `w × h`
(both image and mermaid paths use the identical expression):
`aspect = h as f64 / w as f64; target_cols = 60;
 target_rows = ((target_cols as f64) * aspect / 2.0).ceil() as u16;
 height = target_rows.clamp(2, 20)`.
The real-valued expression `60 * (h/w) / 2 = 30*h/w` is modelled with exact
rational arithmetic: its ceiling for `w > 0` is `(30*h + (w-1)) / w` in
natural division.  (Decoded images always have `w > 0`; the clamp makes the
`as u16` saturation irrelevant.) -/

/-- Row height assigned to a decoded `w × h` image wrapped as an `Image`
element. -/
def image_row_height (w h : Nat) : Nat :=
  let target_rows := (30 * h + (w - 1)) / w
  min (max target_rows 2) 20

/-- The height formula as the spec's sentence states it (refinement target,
worded from the spec): `clamp(round(60 * (height/width) / 2), 2, 20)`, with
`round` = round-half-up, i.e. `⌊30*h/w + 1/2⌋ = (60*h + w) / (2*w)`. -/
def spec_round_row_height (w h : Nat) : Nat :=
  min (max ((60 * h + w) / (2 * w)) 2) 20

/-! ## Application state and key handling (`TuiApp` and the `run` loop)

The terminal, file path, watcher channel and picker handles are external
I/O resources; the fields the claims are about (`rendered`, `toc_entries`,
`scroll_offset`, `toc_selected`, `focus_toc`, and the search state) are kept.
`usize::saturating_add` never saturates for the state sizes any claim
exercises, so it is modelled by `Nat` addition; `saturating_sub` is `Nat`
subtraction. -/

/-- The mutable application state of the `run` loop. -/
structure TuiApp where
  rendered : List ContentElement
  tocEntries : List TocEntry
  scrollOffset : Nat
  tocSelected : Nat
  focusToc : Bool
  searchQuery : List Char
  searchMatches : List Nat
  currentMatchIdx : Nat
  deriving DecidableEq, Repr

/-- The `'n'` key (and `Enter` in search mode): advance the current match
cyclically and jump the scroll offset to it; a no-op on an empty match list.
The code indexes `search_matches[idx]` with `idx < len` guaranteed by the
modulus; `getD _ 0` is that same element. -/
def nextMatch (app : TuiApp) : TuiApp :=
  if app.searchMatches.isEmpty then app
  else
    let i := (app.currentMatchIdx + 1) % app.searchMatches.length
    { app with currentMatchIdx := i, scrollOffset := app.searchMatches.getD i 0 }

/-- The `'N'` key: step the current match backwards, wrapping from 0 to
`len - 1`; a no-op on an empty match list. -/
def prevMatch (app : TuiApp) : TuiApp :=
  if app.searchMatches.isEmpty then app
  else
    let i := if app.currentMatchIdx = 0 then app.searchMatches.length - 1
             else app.currentMatchIdx - 1
    { app with currentMatchIdx := i, scrollOffset := app.searchMatches.getD i 0 }

/-- The navigation keys handled by the non-search branch of the `run` loop. -/
inductive AppKey
  | down
  | up
  | pageDown
  | pageUp
  | home
  | endKey
  | nextKey
  | prevKey
  | tab
  | enter
  deriving DecidableEq, Repr

/-- Key handling of the `run` loop (normal mode). -/
def applyKey : AppKey → TuiApp → TuiApp
  | AppKey.down, app =>
      if app.focusToc then
        if app.tocSelected < app.tocEntries.length - 1 then
          { app with tocSelected := app.tocSelected + 1 }
        else app
      else { app with scrollOffset := app.scrollOffset + 1 }
  | AppKey.up, app =>
      if app.focusToc then { app with tocSelected := app.tocSelected - 1 }
      else { app with scrollOffset := app.scrollOffset - 1 }
  | AppKey.pageDown, app => { app with scrollOffset := app.scrollOffset + 20 }
  | AppKey.pageUp, app => { app with scrollOffset := app.scrollOffset - 20 }
  | AppKey.home, app => { app with scrollOffset := 0 }
  | AppKey.endKey, app =>
      { app with scrollOffset := total_content_rows app.rendered - 1 }
  | AppKey.nextKey, app => nextMatch app
  | AppKey.prevKey, app => prevMatch app
  | AppKey.tab, app => { app with focusToc := !app.focusToc }
  | AppKey.enter, app =>
      if app.focusToc then
        match find_heading_row app.rendered app.tocEntries app.tocSelected with
        | some offset => { app with scrollOffset := offset, focusToc := false }
        | none => app
      else app

/-- The state effect of `update_search_matches` after the query has been
edited: matches rebuilt, current index reset to 0, auto-scroll to the first
match when there is one. -/
def do_update_search (app : TuiApp) : TuiApp :=
  let ms := update_search_matches app.rendered app.searchQuery
  { app with
    searchMatches := ms
    currentMatchIdx := 0
    scrollOffset := match ms with | [] => app.scrollOffset | m :: _ => m }

/-- The operations that drive the application state: a navigation key, a
search for a query (set the query, recompute matches), or a wholesale
rebuild on a file change (scroll and search state are left in place). -/
inductive AppOp
  | key (k : AppKey)
  | search (q : List Char)
  | rebuild (es : List ContentElement) (toc : List TocEntry)

/-- Apply one operation to the state. -/
def applyOp : AppOp → TuiApp → TuiApp
  | AppOp.key k, app => applyKey k app
  | AppOp.search q, app => do_update_search { app with searchQuery := q }
  | AppOp.rebuild es toc, app => { app with rendered := es, tocEntries := toc }

/-- The state `run` starts with (scroll at 0, no focus, no search). -/
def initialApp (es : List ContentElement) (toc : List TocEntry) : TuiApp :=
  { rendered := es
    tocEntries := toc
    scrollOffset := 0
    tocSelected := 0
    focusToc := false
    searchQuery := []
    searchMatches := []
    currentMatchIdx := 0 }

/-- Reachability of application states from a start state under any sequence
of operations. -/
inductive Reachable (s0 : TuiApp) : TuiApp → Prop
  | refl : Reachable s0 s0
  | step {s : TuiApp} (op : AppOp) : Reachable s0 s → Reachable s0 (applyOp op s)

/-! ## Inline formatter (`parse_inline_formatting`)

The Rust function scans the line with a peekable `char` iterator; each
marked span is consumed by an inner loop.  Those inner loops become the
splitting helpers below; the outer loop becomes `inlineLoop`, recursing on
the characters remaining after each step. -/

/-- The backtick character (written numerically). -/
def backtickChar : Char := Char.ofNat 96

/-- Inner loop `for c in chars { if c == a break; push c }`: text consumed
before the first `a` (all of it when `a` is absent), and the characters after
that `a`. -/
def splitChar (a : Char) : List Char → List Char × List Char
  | [] => ([], [])
  | c :: rest =>
      if c = a then ([], rest)
      else
        let pr := splitChar a rest
        (c :: pr.1, pr.2)

/-- Inner loop `while let Some(c) = next { if c == a && peek == Some(a)
{ next; break } push c }`: text before the first doubled `a`, and the
characters after that pair.  A lone trailing `a` is consumed as text. -/
def splitPair (a : Char) : List Char → List Char × List Char
  | [] => ([], [])
  | [c] => ([c], [])
  | c :: d :: rest =>
      if c = a ∧ d = a then ([], rest)
      else
        let pr := splitPair a (d :: rest)
        (c :: pr.1, pr.2)

/-- Result of scanning for a closing character while remembering whether it
was found (the `found_close` flag of the image/link branches). -/
structure ScanResult where
  pre : List Char
  found : Bool
  rest : List Char

/-- Inner loop of the image/link branches: read up to `a`, recording whether
it was found. -/
def scanClose (a : Char) : List Char → ScanResult
  | [] => ⟨[], false, []⟩
  | c :: rest =>
      if c = a then ⟨[], true, rest⟩
      else
        let sc := scanClose a rest
        ⟨c :: sc.pre, sc.found, sc.rest⟩

theorem splitChar_snd_le (a : Char) (l : List Char) : (splitChar a l).2.length ≤ l.length := by
  induction l with
  | nil => simp [splitChar]
  | cons c rest ih =>
      simp only [splitChar]
      by_cases h : c = a
      · simp only [if_pos h, List.length_cons]
        omega
      · simp only [if_neg h, List.length_cons]
        omega

theorem splitPair_snd_le (a : Char) : ∀ l : List Char, (splitPair a l).2.length ≤ l.length
  | [] => by simp [splitPair]
  | [c] => by simp [splitPair]
  | c :: d :: rest => by
      simp only [splitPair]
      by_cases h : c = a ∧ d = a
      · simp only [if_pos h]
        simp only [List.length_cons]
        omega
      · simp only [if_neg h]
        have := splitPair_snd_le a (d :: rest)
        simp only [List.length_cons] at this ⊢
        omega

theorem tail_length_le (l : List Char) : l.tail.length ≤ l.length := by
  cases l <;> simp

theorem scanClose_rest_le (a : Char) (l : List Char) : (scanClose a l).rest.length ≤ l.length := by
  induction l with
  | nil => simp [scanClose]
  | cons c rest ih =>
      simp only [scanClose]
      by_cases h : c = a
      · simp only [if_pos h, List.length_cons]
        omega
      · simp only [if_neg h, List.length_cons]
        omega

/-- The label span emitted for an inline image: `[Image: <alt-or-"image">]`. -/
def imageLabelText (alt : List Char) : List Char :=
  "[Image: ".toList ++ (if alt.isEmpty then "image".toList else alt) ++ [']']

/-- Flush the plain-text accumulator into a raw span
(`if !current.is_empty() { spans.push(Span::raw(current)) }`). -/
def flushCurrent (cur : List Char) (spans : List Span) : List Span :=
  if cur.isEmpty then spans else spans ++ [⟨cur, SpanKind.raw⟩]

/-- The main scan loop of `parse_inline_formatting`: `cs` is the remaining
input, `cur` the plain-text accumulator, `spans` the output so far. -/
def inlineLoop (cs cur : List Char) (spans : List Span) : List Span :=
  match cs with
  | [] => flushCurrent cur spans
  | c :: rest =>
    if c = backtickChar then
      let pr := splitChar backtickChar rest
      inlineLoop pr.2 [] (flushCurrent cur spans ++ [⟨pr.1, SpanKind.code⟩])
    else if c = '*' ∧ rest.head? = some '*' then
      let pr := splitPair '*' rest.tail
      inlineLoop pr.2 [] (flushCurrent cur spans ++ [⟨pr.1, SpanKind.bold⟩])
    else if c = '*' ∨ c = '_' then
      let pr := splitChar c rest
      inlineLoop pr.2 [] (flushCurrent cur spans ++ [⟨pr.1, SpanKind.italic⟩])
    else if c = '~' ∧ rest.head? = some '~' then
      let pr := splitPair '~' rest.tail
      inlineLoop pr.2 [] (flushCurrent cur spans ++ [⟨pr.1, SpanKind.strike⟩])
    else if c = '!' ∧ rest.head? = some '[' then
      let sc := scanClose ']' rest.tail
      if sc.found ∧ sc.rest.head? = some '(' then
        let ur := splitChar ')' sc.rest.tail
        inlineLoop ur.2 [] (flushCurrent cur spans ++ [⟨imageLabelText sc.pre, SpanKind.imageLabel⟩])
      else
        inlineLoop sc.rest (cur ++ '!' :: '[' :: sc.pre ++ (if sc.found then [']'] else [])) spans
    else if c = '[' then
      let sc := scanClose ']' rest
      if sc.found ∧ sc.rest.head? = some '(' then
        let ur := splitChar ')' sc.rest.tail
        inlineLoop ur.2 [] (flushCurrent cur spans ++ [⟨sc.pre, SpanKind.link⟩])
      else
        inlineLoop sc.rest (cur ++ '[' :: sc.pre ++ (if sc.found then [']'] else [])) spans
    else
      inlineLoop rest (cur ++ [c]) spans
termination_by cs.length
decreasing_by
  all_goals simp only [List.length_cons]
  · exact Nat.lt_succ_of_le (splitChar_snd_le _ _)
  · exact Nat.lt_succ_of_le (Nat.le_trans (splitPair_snd_le _ _) (tail_length_le _))
  · exact Nat.lt_succ_of_le (splitChar_snd_le _ _)
  · exact Nat.lt_succ_of_le (Nat.le_trans (splitPair_snd_le _ _) (tail_length_le _))
  · exact Nat.lt_succ_of_le (Nat.le_trans (splitChar_snd_le _ _)
      (Nat.le_trans (tail_length_le _)
        (Nat.le_trans (scanClose_rest_le _ _) (tail_length_le _))))
  · exact Nat.lt_succ_of_le (Nat.le_trans (scanClose_rest_le _ _) (tail_length_le _))
  · exact Nat.lt_succ_of_le (Nat.le_trans (splitChar_snd_le _ _)
      (Nat.le_trans (tail_length_le _) (scanClose_rest_le _ _)))
  · exact Nat.lt_succ_of_le (scanClose_rest_le _ _)
  · exact Nat.lt_succ_of_le (Nat.le_refl _)

/-- `parse_inline_formatting`: run the scan loop on the line; an empty span
list becomes `Line::from("")`, i.e. a single empty raw span. -/
def parse_inline_formatting (line : List Char) : RLine :=
  let spans := inlineLoop line [] []
  if spans.isEmpty then [⟨[], SpanKind.raw⟩] else spans

/-! ## Row-index lemmas -/

/-- Default element used when indexing with `List.getD`. -/
def dfl : ContentElement := ContentElement.TextLine []

theorem total_cons (e : ContentElement) (tl : List ContentElement) :
    total_content_rows (e :: tl) = e.row_height + total_content_rows tl := by
  simp [total_content_rows]

/-- Every absolute row below the total is inside exactly one element's
row interval. -/
theorem exists_unique_interval :
    ∀ (es : List ContentElement) (r : Nat), r < total_content_rows es →
      ∃! i, i < es.length ∧ elemStart es i ≤ r ∧
        r < elemStart es i + (es.getD i dfl).row_height := by
  intro es
  induction es with
  | nil => intro r hr; simp [total_content_rows] at hr
  | cons e tl ih =>
      intro r hr
      by_cases h0 : r < e.row_height
      · refine ⟨0, ⟨Nat.succ_pos _, by simp [elemStart_zero], ?_⟩, ?_⟩
        · simpa [elemStart_zero] using h0
        · rintro j ⟨hj, hle, hlt⟩
          cases j with
          | zero => rfl
          | succ j' =>
              exfalso
              rw [elemStart_cons_succ] at hle
              omega
      · push_neg at h0
        have hr' : r - e.row_height < total_content_rows tl := by
          rw [total_cons] at hr; omega
        obtain ⟨i, ⟨hi, hs, hlt⟩, huniq⟩ := ih (r - e.row_height) hr'
        refine ⟨i + 1, ⟨by simpa using Nat.succ_lt_succ hi, ?_, ?_⟩, ?_⟩
        · rw [elemStart_cons_succ]; omega
        · rw [elemStart_cons_succ]
          simp only [List.getD_cons_succ]
          omega
        · rintro j ⟨hj, hle, hjlt⟩
          cases j with
          | zero =>
              exfalso
              rw [elemStart_zero] at hjlt
              simp only [List.getD_cons_zero] at hjlt
              omega
          | succ j' =>
              have := huniq j' ?_
              · omega
              · refine ⟨by simpa using Nat.lt_of_succ_lt_succ hj, ?_, ?_⟩
                · rw [elemStart_cons_succ] at hle; omega
                · rw [elemStart_cons_succ] at hjlt
                  simp only [List.getD_cons_succ] at hjlt
                  omega

/-- C1: for every element sequence, the total row count is the sum of the
elements' row heights (Text and Placeholder contribute 1; an Image/Block its
stored height), and every absolute row `r < totalRows` lies in exactly one
element's interval `[start, start + height)`, where `start` is the prefix
sum of the heights of the earlier elements. -/
theorem row_index_partition (es : List ContentElement) :
    total_content_rows es = (es.map ContentElement.row_height).sum ∧
    ∀ r, r < total_content_rows es →
      ∃! i, i < es.length ∧ elemStart es i ≤ r ∧
        r < elemStart es i + (es.getD i dfl).row_height := by
  exact ⟨rfl, fun r hr => exists_unique_interval es r hr⟩

/-- Witness for C1 at a concrete sequence (row 2 of a Text / 3-row Image /
Placeholder document lies in exactly one interval, the image's). -/
theorem row_index_partition_witness :
    ∃! i, i < ([ContentElement.TextLine [], ContentElement.Image [] 3,
        ContentElement.ImagePlaceholder []] : List ContentElement).length ∧
      elemStart [ContentElement.TextLine [], ContentElement.Image [] 3,
        ContentElement.ImagePlaceholder []] i ≤ 2 ∧
      2 < elemStart [ContentElement.TextLine [], ContentElement.Image [] 3,
        ContentElement.ImagePlaceholder []] i +
        (([ContentElement.TextLine [], ContentElement.Image [] 3,
          ContentElement.ImagePlaceholder []] : List ContentElement).getD i dfl).row_height :=
  (row_index_partition _).2 2 (by decide)

/-- A document of 100 total rows (100 single-row text elements), the
spec's scrolling scenario. -/
def doc100 : List ContentElement := List.replicate 100 (ContentElement.TextLine [])

/-- C2: the offset used by `ui` to compute the visible window is
`min(requested, max(0, totalRows - viewportHeight))` and is never negative;
concretely, in a 100-row document with viewport height 20, a requested
offset of 95 is clamped to 80 and the visible window is exactly the last 20
rows (absolute rows 80..99). -/
theorem scroll_clamp_correct :
    (∀ requested total_rows content_height : Nat,
       (scrollUsed requested total_rows content_height : Int)
          = min (requested : Int) (max 0 ((total_rows : Int) - (content_height : Int))) ∧
        0 ≤ (scrollUsed requested total_rows content_height : Int)) ∧
    (scrollUsed 95 (total_content_rows doc100) 20 = 80 ∧
     (render_content_elements doc100 (scrollUsed 95 (total_content_rows doc100) 20) 20).map
        RenderedItem.absRow = (List.range 20).map (fun k => 80 + k)) := by
  refine ⟨fun r t h => ⟨?_, ?_⟩, ?_, ?_⟩
  · simp only [scrollUsed]
    omega
  · simp only [scrollUsed]
    omega
  · decide
  · decide

/-! ## Viewport bounds of the render loop -/

/-- The rows emitted by the render loop never exceed the space left in the
viewport, and every emitted widget fits below the viewport bottom. -/
theorem renderLoop_height_bound (available_height scroll : Nat) :
    ∀ (es : List ContentElement) (rs y ar : Nat), y ≤ available_height →
      ((renderLoop es rs y ar available_height scroll).map RenderedItem.height).sum + y
          ≤ available_height ∧
      ∀ it ∈ renderLoop es rs y ar available_height scroll,
        it.y + it.height ≤ available_height := by
  intro es
  induction es with
  | nil =>
      intro rs y ar hy
      simp only [renderLoop, List.map_nil, List.sum_nil, Nat.zero_add]
      exact ⟨hy, by simp⟩
  | cons e tl ih =>
      intro rs y ar hy
      by_cases hb : available_height ≤ y
      · simp only [renderLoop, if_pos hb, List.map_nil, List.sum_nil, Nat.zero_add]
        exact ⟨hy, by simp⟩
      · cases e with
        | TextLine l =>
            simp only [renderLoop, if_neg hb, ContentElement.row_height]
            split_ifs with habove hsw
            · exact ih _ _ _ hy
            · have hy1 : y + 1 ≤ available_height := by omega
              obtain ⟨hsum, hits⟩ := ih (rs + 1) (y + 1) (ar + 1) hy1
              constructor
              · simp only [List.map_cons, List.sum_cons]
                omega
              · intro it hit
                rcases List.mem_cons.mp hit with h | h
                · subst h; simpa using hy1
                · exact hits it h
            · exact ih _ _ _ hy
        | Image alt h =>
            simp only [renderLoop, if_neg hb, ContentElement.row_height]
            split_ifs with habove hsw hrh
            · exact ih _ _ _ hy
            · exact ih _ _ _ hy
            · exact ih _ _ _ hy
            · have hyr : y + min h (available_height - y) ≤ available_height := by omega
              obtain ⟨hsum, hits⟩ := ih (rs + h) (y + min h (available_height - y)) (ar + h) hyr
              constructor
              · simp only [List.map_cons, List.sum_cons]
                omega
              · intro it hit
                rcases List.mem_cons.mp hit with hh | hh
                · subst hh; simpa using hyr
                · exact hits it hh
        | ImagePlaceholder l =>
            simp only [renderLoop, if_neg hb, ContentElement.row_height]
            split_ifs with habove hsw
            · exact ih _ _ _ hy
            · have hy1 : y + 1 ≤ available_height := by omega
              obtain ⟨hsum, hits⟩ := ih (rs + 1) (y + 1) (ar + 1) hy1
              constructor
              · simp only [List.map_cons, List.sum_cons]
                omega
              · intro it hit
                rcases List.mem_cons.mp hit with h | h
                · subst h; simpa using hy1
                · exact hits it h
            · exact ih _ _ _ hy

/-- C10: the visible-window computation renders at most `viewportHeight`
rows in total, and every rendered widget lies inside the viewport
(`y + height ≤ viewportHeight`). -/
theorem render_at_most_viewport (es : List ContentElement) (scroll content_height : Nat) :
    ((render_content_elements es scroll content_height).map RenderedItem.height).sum
        ≤ content_height ∧
    ∀ it ∈ render_content_elements es scroll content_height,
      it.y + it.height ≤ content_height := by
  obtain ⟨hsum, hits⟩ :=
    renderLoop_height_bound content_height scroll es 0 0 0 (Nat.zero_le _)
  exact ⟨by simpa [render_content_elements] using hsum,
    by simpa [render_content_elements] using hits⟩

/-- C5: when the render loop reaches a multi-row Image/Block element that is
at least partially visible (`scroll < rs + h`), with room left in the
viewport: if the element straddles the viewport top (`skipWithin > 0`, i.e.
`rs < scroll`) it is skipped in its entirety — no rows of it are rendered
and `yOffset` does not advance; if it starts at or below the top
(`scroll ≤ rs`) it is rendered at the current `yOffset` with height
`min(h, viewportHeight - yOffset)` and `yOffset` advances by that height. -/
theorem image_block_straddle (alt : List Char) (h : Nat) (rest : List ContentElement)
    (rs y ar available_height scroll : Nat)
    (hy : y < available_height) (hh : 1 ≤ h) (hvis : scroll < rs + h) :
    (rs < scroll →
       renderLoop (ContentElement.Image alt h :: rest) rs y ar available_height scroll
         = renderLoop rest (rs + h) y (ar + h) available_height scroll) ∧
    (scroll ≤ rs →
       renderLoop (ContentElement.Image alt h :: rest) rs y ar available_height scroll
         = ⟨ar, y, min h (available_height - y), true⟩ ::
             renderLoop rest (rs + h) (y + min h (available_height - y)) (ar + h)
               available_height scroll) := by
  have hb : ¬ available_height ≤ y := by omega
  have habove : ¬ rs + h ≤ scroll := by omega
  constructor
  · intro hstraddle
    have hsw : 0 < scroll - rs := by omega
    simp only [renderLoop, if_neg hb, ContentElement.row_height, if_neg habove, if_pos hsw]
  · intro hbelow
    have hsw : ¬ 0 < scroll - rs := by omega
    have hrh : ¬ min h (available_height - y) = 0 := by
      simp only [Nat.min_eq_zero_iff]
      omega
    simp only [renderLoop, if_neg hb, ContentElement.row_height, if_neg habove, if_neg hsw,
      if_neg hrh]

/-- Witness for C5: a 3-row block after a single text row, viewport height 5.
With `scroll = 2` the block straddles the top and is skipped whole; with the
loop state at `scroll ≤ rs` it renders at the current row with height
`min(3, 5 - 1) = 3`. -/
theorem image_block_straddle_witness :
    ((1 : Nat) < 2 →
       renderLoop (ContentElement.Image [] 3 :: [ContentElement.TextLine []]) 1 1 1 5 2
         = renderLoop [ContentElement.TextLine []] (1 + 3) 1 (1 + 3) 5 2) ∧
    ((2 : Nat) ≤ 1 →
       renderLoop (ContentElement.Image [] 3 :: [ContentElement.TextLine []]) 1 1 1 5 2
         = ⟨1, 1, min 3 (5 - 1), true⟩ ::
             renderLoop [ContentElement.TextLine []] (1 + 3) (1 + min 3 (5 - 1)) (1 + 3) 5 2) :=
  image_block_straddle [] 3 [ContentElement.TextLine []] 1 1 1 5 2
    (by decide) (by decide) (by decide)

/-! ## Cyclic match navigation -/

theorem nextMatch_matches (app : TuiApp) : (nextMatch app).searchMatches = app.searchMatches := by
  simp only [nextMatch]
  split_ifs <;> rfl

theorem prevMatch_matches (app : TuiApp) : (prevMatch app).searchMatches = app.searchMatches := by
  simp only [prevMatch]
  split_ifs <;> rfl

theorem nextMatch_idx (app : TuiApp) (hne : ¬ app.searchMatches.isEmpty) :
    (nextMatch app).currentMatchIdx = (app.currentMatchIdx + 1) % app.searchMatches.length := by
  simp only [nextMatch, if_neg hne]

theorem prevMatch_idx (app : TuiApp) (hne : ¬ app.searchMatches.isEmpty) :
    (prevMatch app).currentMatchIdx =
      if app.currentMatchIdx = 0 then app.searchMatches.length - 1
      else app.currentMatchIdx - 1 := by
  simp only [prevMatch, if_neg hne]

theorem prevMatch_idx_mod (app : TuiApp) (hlt : app.currentMatchIdx < app.searchMatches.length) :
    (prevMatch app).currentMatchIdx =
      (app.currentMatchIdx + (app.searchMatches.length - 1)) % app.searchMatches.length := by
  have hne : ¬ app.searchMatches.isEmpty := by
    simp only [List.isEmpty_iff, ← List.length_eq_zero]
    omega
  rw [prevMatch_idx app hne]
  by_cases h0 : app.currentMatchIdx = 0
  · rw [if_pos h0, h0, Nat.zero_add, Nat.mod_eq_of_lt (by omega)]
  · rw [if_neg h0]
    have : app.currentMatchIdx + (app.searchMatches.length - 1)
        = (app.currentMatchIdx - 1) + 1 * app.searchMatches.length := by omega
    rw [this, Nat.add_mul_mod_self_right, Nat.mod_eq_of_lt (by omega)]

theorem nextMatch_iterate (k : Nat) :
    ∀ app : TuiApp, app.currentMatchIdx < app.searchMatches.length →
      (nextMatch^[k] app).searchMatches = app.searchMatches ∧
      (nextMatch^[k] app).currentMatchIdx
        = (app.currentMatchIdx + k) % app.searchMatches.length := by
  induction k with
  | zero =>
      intro app hlt
      simpa using (Nat.mod_eq_of_lt hlt).symm
  | succ k ih =>
      intro app hlt
      have hne : ¬ app.searchMatches.isEmpty := by
        simp only [List.isEmpty_iff, ← List.length_eq_zero]
        omega
      have hlt' : (nextMatch app).currentMatchIdx < (nextMatch app).searchMatches.length := by
        rw [nextMatch_matches, nextMatch_idx app hne]
        exact Nat.mod_lt _ (by omega)
      obtain ⟨hm, hi⟩ := ih (nextMatch app) hlt'
      rw [Function.iterate_succ_apply]
      refine ⟨by rw [hm, nextMatch_matches], ?_⟩
      rw [hi, nextMatch_matches, nextMatch_idx app hne, Nat.mod_add_mod, Nat.add_assoc,
        Nat.add_comm 1 k]

theorem prevMatch_iterate (k : Nat) :
    ∀ app : TuiApp, app.currentMatchIdx < app.searchMatches.length →
      (prevMatch^[k] app).searchMatches = app.searchMatches ∧
      (prevMatch^[k] app).currentMatchIdx
        = (app.currentMatchIdx + k * (app.searchMatches.length - 1))
            % app.searchMatches.length := by
  induction k with
  | zero =>
      intro app hlt
      simpa using (Nat.mod_eq_of_lt hlt).symm
  | succ k ih =>
      intro app hlt
      have hlt' : (prevMatch app).currentMatchIdx < (prevMatch app).searchMatches.length := by
        rw [prevMatch_matches, prevMatch_idx_mod app hlt]
        exact Nat.mod_lt _ (by omega)
      obtain ⟨hm, hi⟩ := ih (prevMatch app) hlt'
      rw [Function.iterate_succ_apply]
      refine ⟨by rw [hm, prevMatch_matches], ?_⟩
      rw [hi, prevMatch_matches, prevMatch_idx_mod app hlt, Nat.mod_add_mod]
      congr 1
      ring

/-- C4: with a valid current index into a non-empty match list, `next`
advances the index by 1 modulo the match count and `prev` decrements it,
wrapping from 0 to `len - 1`; applying `next` (resp. `prev`) exactly
`matches.length` times returns the index to its original value.  On an empty
match list both operations leave the whole state unchanged. -/
theorem search_nav_cyclic (app : TuiApp) :
    (app.currentMatchIdx < app.searchMatches.length →
       (nextMatch app).currentMatchIdx
           = (app.currentMatchIdx + 1) % app.searchMatches.length ∧
       (prevMatch app).currentMatchIdx
           = (if app.currentMatchIdx = 0 then app.searchMatches.length - 1
              else app.currentMatchIdx - 1) ∧
       (nextMatch^[app.searchMatches.length] app).currentMatchIdx = app.currentMatchIdx ∧
       (prevMatch^[app.searchMatches.length] app).currentMatchIdx = app.currentMatchIdx) ∧
    (app.searchMatches = [] → nextMatch app = app ∧ prevMatch app = app) := by
  constructor
  · intro hlt
    have hne : ¬ app.searchMatches.isEmpty := by
      simp only [List.isEmpty_iff, ← List.length_eq_zero]
      omega
    refine ⟨nextMatch_idx app hne, prevMatch_idx app hne, ?_, ?_⟩
    · rw [(nextMatch_iterate _ app hlt).2, Nat.add_mod_right, Nat.mod_eq_of_lt hlt]
    · rw [(prevMatch_iterate _ app hlt).2, Nat.add_mul_mod_self_left, Nat.mod_eq_of_lt hlt]
  · intro hemp
    constructor
    · simp [nextMatch, hemp]
    · simp [prevMatch, hemp]

/-! ## Search recompute against its spec -/

/-- The matching condition tested by the search loop (query already
lowercased). -/
def elemMatchesLow (ql : List Char) : ContentElement → Bool
  | ContentElement.TextLine l => containsSub ((flattenLine l).map Char.toLower) ql
  | ContentElement.Image _ _ => false
  | ContentElement.ImagePlaceholder l => containsSub ((flattenLine l).map Char.toLower) ql

theorem elementMatchesQuery_eq_low (q : List Char) (e : ContentElement) :
    elementMatchesQuery q e = elemMatchesLow (q.map Char.toLower) e := by
  cases e <;> rfl

/-- Peeling the first index off an indexed filter-map over `range (n+1)`. -/
theorem range_filter_map_cons {α : Type} (n : Nat) (P : Nat → Bool) (F : Nat → α) :
    ((List.range (n + 1)).filter P).map F
      = (if P 0 then [F 0] else []) ++
        ((List.range n).filter (fun i => P (i + 1))).map (fun i => F (i + 1)) := by
  rw [List.range_succ_eq_map]
  by_cases h : P 0
  · simp [List.filter_cons, h, List.filter_map, List.map_map, Function.comp_def]
  · simp [List.filter_cons, h, List.filter_map, List.map_map, Function.comp_def]

theorem searchLoop_eq (ql : List Char) :
    ∀ (es : List ContentElement) (off : Nat),
      searchLoop es ql off
        = ((List.range es.length).filter (fun i => elemMatchesLow ql (es.getD i dfl))).map
            (fun i => off + elemStart es i) := by
  intro es
  induction es with
  | nil => intro off; simp [searchLoop]
  | cons e tl ih =>
      intro off
      rw [List.length_cons, range_filter_map_cons]
      have hP0 : (fun i => elemMatchesLow ql ((e :: tl).getD i dfl)) 0 = elemMatchesLow ql e := by
        simp
      cases e with
      | TextLine l =>
          by_cases hm : containsSub ((flattenLine l).map Char.toLower) ql
          · simp only [searchLoop, if_pos hm]
            rw [ih (off + 1)]
            simp [elemMatchesLow, hm, elemStart_cons_succ, ContentElement.row_height,
              elemStart_zero, Nat.add_assoc]
          · simp only [searchLoop, if_neg hm]
            rw [ih (off + 1)]
            simp [elemMatchesLow, hm, elemStart_cons_succ, ContentElement.row_height,
              Nat.add_assoc]
      | Image alt h =>
          simp only [searchLoop]
          rw [ih (off + h)]
          simp [elemMatchesLow, elemStart_cons_succ, ContentElement.row_height, Nat.add_assoc]
      | ImagePlaceholder l =>
          by_cases hm : containsSub ((flattenLine l).map Char.toLower) ql
          · simp only [searchLoop, if_pos hm]
            rw [ih (off + 1)]
            simp [elemMatchesLow, hm, elemStart_cons_succ, ContentElement.row_height,
              elemStart_zero, Nat.add_assoc]
          · simp only [searchLoop, if_neg hm]
            rw [ih (off + 1)]
            simp [elemMatchesLow, hm, elemStart_cons_succ, ContentElement.row_height,
              Nat.add_assoc]

/-- The rows recorded by the search loop are all at least the running
offset, and strictly increase along the list. -/
theorem searchLoop_sorted (ql : List Char) :
    ∀ (es : List ContentElement) (off : Nat),
      (∀ x ∈ searchLoop es ql off, off ≤ x) ∧
      (searchLoop es ql off).Chain' (fun a b => a < b) := by
  intro es
  induction es with
  | nil => intro off; simp [searchLoop]
  | cons e tl ih =>
      intro off
      cases e with
      | TextLine l =>
          by_cases hm : containsSub ((flattenLine l).map Char.toLower) ql
          · simp only [searchLoop, if_pos hm]
            obtain ⟨hle, hch⟩ := ih (off + 1)
            refine ⟨?_, ?_⟩
            · intro x hx
              rcases List.mem_cons.mp hx with h | h
              · omega
              · have := hle x h; omega
            · rw [List.chain'_cons']
              exact ⟨fun y hy => by have := hle y (List.mem_of_mem_head? hy); omega, hch⟩
          · simp only [searchLoop, if_neg hm]
            obtain ⟨hle, hch⟩ := ih (off + 1)
            exact ⟨fun x hx => by have := hle x hx; omega, hch⟩
      | Image alt h =>
          simp only [searchLoop]
          obtain ⟨hle, hch⟩ := ih (off + h)
          exact ⟨fun x hx => by have := hle x hx; omega, hch⟩
      | ImagePlaceholder l =>
          by_cases hm : containsSub ((flattenLine l).map Char.toLower) ql
          · simp only [searchLoop, if_pos hm]
            obtain ⟨hle, hch⟩ := ih (off + 1)
            refine ⟨?_, ?_⟩
            · intro x hx
              rcases List.mem_cons.mp hx with h | h
              · omega
              · have := hle x h; omega
            · rw [List.chain'_cons']
              exact ⟨fun y hy => by have := hle y (List.mem_of_mem_head? hy); omega, hch⟩
          · simp only [searchLoop, if_neg hm]
            obtain ⟨hle, hch⟩ := ih (off + 1)
            exact ⟨fun x hx => by have := hle x hx; omega, hch⟩

/-- C3 (amended): for every element sequence and NON-EMPTY query, the search
recompute produces exactly the ascending list of starting absolute rows of
the Text/Placeholder elements whose flattened text contains the query
case-insensitively; Image/Block elements never match and each matching
element is recorded once, at its starting row.  (The code special-cases the
empty query to an empty match list.) -/
theorem update_search_spec (es : List ContentElement) (q : List Char) (hq : ¬ q.isEmpty) :
    update_search_matches es q = specSearchMatches es q ∧
    (update_search_matches es q).Chain' (fun a b => a < b) := by
  have h1 : update_search_matches es q = searchLoop es (q.map Char.toLower) 0 := by
    simp [update_search_matches, hq]
  constructor
  · rw [h1, searchLoop_eq]
    simp [specSearchMatches, elementMatchesQuery_eq_low, dfl]
  · rw [h1]
    exact (searchLoop_sorted _ es 0).2

/-- Example document for the search witnesses: elements 0 and 2 contain
"foo" case-insensitively. -/
def exSearchDoc : List ContentElement :=
  [ContentElement.TextLine [⟨"has FOO here".toList, SpanKind.raw⟩],
   ContentElement.TextLine [⟨"nothing".toList, SpanKind.raw⟩],
   ContentElement.TextLine [⟨"foo again".toList, SpanKind.raw⟩]]

/-- Witness for C3 on a concrete document and the query "foo". -/
theorem update_search_spec_witness :
    update_search_matches exSearchDoc "foo".toList = specSearchMatches exSearchDoc "foo".toList ∧
    (update_search_matches exSearchDoc "foo".toList).Chain' (fun a b => a < b) :=
  update_search_spec exSearchDoc "foo".toList (by decide)

/-- Counterexample to C3 as stated: on the empty query the code returns no
matches, while "contains the query as a case-insensitive substring" holds
vacuously of every Text element, so the claim's list would be `[0]`. -/
theorem update_search_empty_query_cex :
    update_search_matches [ContentElement.TextLine [⟨['a'], SpanKind.raw⟩]] [] = [] ∧
    specSearchMatches [ContentElement.TextLine [⟨['a'], SpanKind.raw⟩]] [] = [0] ∧
    update_search_matches [ContentElement.TextLine [⟨['a'], SpanKind.raw⟩]] []
      ≠ specSearchMatches [ContentElement.TextLine [⟨['a'], SpanKind.raw⟩]] [] := by
  refine ⟨rfl, rfl, ?_⟩
  decide

/-- Example application state for the navigation witness: three matches,
current index 1. -/
def exApp : TuiApp :=
  { rendered := []
    tocEntries := []
    scrollOffset := 0
    tocSelected := 0
    focusToc := false
    searchQuery := []
    searchMatches := [3, 7, 11]
    currentMatchIdx := 1 }

/-- Witness for C4 at a concrete state (3 matches, index 1). -/
theorem search_nav_cyclic_witness :
    (nextMatch exApp).currentMatchIdx
        = (exApp.currentMatchIdx + 1) % exApp.searchMatches.length ∧
    (prevMatch exApp).currentMatchIdx
        = (if exApp.currentMatchIdx = 0 then exApp.searchMatches.length - 1
           else exApp.currentMatchIdx - 1) ∧
    (nextMatch^[exApp.searchMatches.length] exApp).currentMatchIdx = exApp.currentMatchIdx ∧
    (prevMatch^[exApp.searchMatches.length] exApp).currentMatchIdx = exApp.currentMatchIdx :=
  (search_nav_cyclic exApp).1 (by decide)

/-! ## Image row-height formula -/

/-- The rational ceiling of `a / b` is the rounded-up natural division. -/
theorem nat_ceil_div_eq (a b : Nat) (hb : 0 < b) :
    Nat.ceil ((a : ℚ) / (b : ℚ)) = (a + b - 1) / b := by
  apply eq_of_forall_ge_iff
  intro n
  rw [Nat.ceil_le, div_le_iff₀ (by exact_mod_cast hb), ← Nat.ceilDiv_eq_add_pred_div,
    ceilDiv_le_iff_le_mul hb, mul_comm (n : ℚ) (b : ℚ)]
  exact_mod_cast Iff.rfl

/-- C6 (amended): for a decoded image of pixel size `w × h` with `w > 0`,
the Block row height is `clamp(CEIL(60 * (h/w) / 2), 2, 20)` — the code uses
`.ceil()`, not `round`. -/
theorem image_height_ceil (w h : Nat) (hw : 0 < w) :
    image_row_height w h
      = min (max (Nat.ceil (60 * ((h : ℚ) / (w : ℚ)) / 2)) 2) 20 := by
  have h1 : 60 * ((h : ℚ) / (w : ℚ)) / 2 = ((30 * h : ℕ) : ℚ) / (w : ℚ) := by
    push_cast
    ring
  rw [h1, nat_ceil_div_eq _ _ hw]
  have harg : 30 * h + w - 1 = 30 * h + (w - 1) := by omega
  rw [harg]
  rfl

/-- Witness for C6 (amended) at a 9 × 1 image. -/
theorem image_height_ceil_witness :
    (0 : Nat) < 9 ∧
    image_row_height 9 1
      = min (max (Nat.ceil (60 * (((1 : Nat) : ℚ) / ((9 : Nat) : ℚ)) / 2)) 2) 20 :=
  ⟨by decide, image_height_ceil 9 1 (by decide)⟩

/-- Counterexample to C6 as stated: for a 9 × 1 image the exact value
`60 * (1/9) / 2 = 10/3` has ceiling 4 but rounds to 3; the code stores 4,
the claim's `round` formula gives 3. -/
theorem image_height_round_cex :
    image_row_height 9 1 = 4 ∧ spec_round_row_height 9 1 = 3 ∧
    image_row_height 9 1 ≠ spec_round_row_height 9 1 := by
  refine ⟨rfl, rfl, ?_⟩
  decide

/-! ## Scroll-offset invariant -/

/-- C7 (amended): the STORED scroll offset is not kept within the bound (the
scroll keys mutate it unclamped); the clamp is applied on every render, so
the offset actually used to compute the visible window satisfies
`offset ≤ max(0, totalRows - viewportHeight)` in every state. -/
theorem scroll_used_within_bound (app : TuiApp) (content_height : Nat) :
    (scrollUsed app.scrollOffset (total_content_rows app.rendered) content_height : Int)
      ≤ max 0 ((total_content_rows app.rendered : Int) - (content_height : Int)) := by
  simp only [scrollUsed]
  omega

/-- Counterexample to C7 as stated: starting from the initial state on an
empty document (totalRows = 0, stored offset 0), one Down key yields a
reachable state whose stored offset 1 exceeds
`max(0, totalRows - viewportHeight) = 0` (viewport height 20). -/
theorem scroll_invariant_cex :
    Reachable (initialApp [] []) (applyOp (AppOp.key AppKey.down) (initialApp [] [])) ∧
    ¬ ((applyOp (AppOp.key AppKey.down) (initialApp [] [])).scrollOffset
         ≤ max 0 (total_content_rows
             (applyOp (AppOp.key AppKey.down) (initialApp [] [])).rendered - 20)) := by
  refine ⟨Reachable.step _ Reachable.refl, ?_⟩
  decide

/-! ## Heading navigation against its spec -/

/-- Peeling the first index off an indexed `find?` over `range (n+1)`. -/
theorem range_find_cons (n : Nat) (P : Nat → Bool) :
    (List.range (n + 1)).find? P
      = if P 0 then some 0
        else ((List.range n).find? (fun i => P (i + 1))).map (fun i => i + 1) := by
  rw [List.range_succ_eq_map]
  by_cases h : P 0
  · simp [h]
  · simp [h, List.find?_map, Function.comp_def]

theorem findRow_eq (t : List Char) :
    ∀ (es : List ContentElement) (off : Nat),
      findRow es t off
        = ((List.range es.length).find?
            (fun i => elementMatchesHeading t (es.getD i dfl))).map
            (fun i => off + elemStart es i) := by
  intro es
  induction es with
  | nil => intro off; simp [findRow]
  | cons e tl ih =>
      intro off
      rw [List.length_cons, range_find_cons]
      cases e with
      | TextLine l =>
          by_cases hm : containsSub (flattenLine l) t
          · simp only [findRow, if_pos hm]
            simp [elementMatchesHeading, hm, elemStart_zero]
          · simp only [findRow, if_neg hm]
            rw [ih (off + 1)]
            simp [elementMatchesHeading, hm, Option.map_map, Function.comp_def,
              elemStart_cons_succ, ContentElement.row_height, Nat.add_assoc]
      | Image alt h =>
          simp only [findRow]
          rw [ih (off + h)]
          simp [elementMatchesHeading, Option.map_map, Function.comp_def,
            elemStart_cons_succ, ContentElement.row_height, Nat.add_assoc]
      | ImagePlaceholder l =>
          by_cases hm : containsSub (flattenLine l) t
          · simp only [findRow, if_pos hm]
            simp [elementMatchesHeading, hm, elemStart_zero]
          · simp only [findRow, if_neg hm]
            rw [ih (off + 1)]
            simp [elementMatchesHeading, hm, Option.map_map, Function.comp_def,
              elemStart_cons_succ, ContentElement.row_height, Nat.add_assoc]

/-- C8: the heading locate walks the elements in document order and returns
the starting absolute row of the first Text/Placeholder element whose
flattened text contains the heading text (case-sensitive); an out-of-range
TOC index yields `none`, and on `none` the Enter key leaves the scroll
offset unchanged. -/
theorem find_heading_row_correct (es : List ContentElement) (entries : List TocEntry)
    (idx : Nat) :
    find_heading_row es entries idx
      = (entries.get? idx).bind (fun entry => specLocate es entry.text) ∧
    (entries.length ≤ idx → find_heading_row es entries idx = none) ∧
    (∀ app : TuiApp, app.focusToc = true →
       find_heading_row app.rendered app.tocEntries app.tocSelected = none →
       (applyKey AppKey.enter app).scrollOffset = app.scrollOffset) := by
  refine ⟨?_, ?_, ?_⟩
  · unfold find_heading_row specLocate
    cases hg : entries.get? idx with
    | none => simp
    | some entry =>
        simp only [Option.bind_some]
        rw [findRow_eq entry.text es 0]
        simp [dfl]
  · intro hge
    unfold find_heading_row
    rw [List.get?_eq_none.mpr hge]
  · intro app hf hnone
    simp [applyKey, hf, hnone]

/-- Example TOC for the heading witness. -/
def exTocEntries : List TocEntry := [⟨1, "Title".toList⟩]

/-- Witness for C8: an out-of-range TOC index returns `none`. -/
theorem find_heading_row_correct_witness :
    find_heading_row exSearchDoc exTocEntries 5 = none :=
  (find_heading_row_correct exSearchDoc exTocEntries 5).2.1 (by decide)

/-! ## Inline round trip -/

theorem inlineLoop_no_markup :
    ∀ (cs cur : List Char) (spans : List Span),
      (∀ c ∈ cs, ¬ (c = backtickChar ∨ c = '*' ∨ c = '_' ∨ c = '~' ∨ c = '!' ∨ c = '[')) →
      inlineLoop cs cur spans = flushCurrent (cur ++ cs) spans := by
  intro cs
  induction cs with
  | nil =>
      intro cur spans _
      simp [inlineLoop]
  | cons c rest ih =>
      intro cur spans h
      have hc := h c (List.mem_cons_self _ _)
      push_neg at hc
      obtain ⟨h1, h2, h3, h4, h5, h6⟩ := hc
      have n2 : ¬ (c = '*' ∧ rest.head? = some '*') := fun hh => h2 hh.1
      have n3 : ¬ (c = '*' ∨ c = '_') := by
        rintro (hh | hh)
        exacts [h2 hh, h3 hh]
      have n4 : ¬ (c = '~' ∧ rest.head? = some '~') := fun hh => h4 hh.1
      have n5 : ¬ (c = '!' ∧ rest.head? = some '[') := fun hh => h5 hh.1
      rw [inlineLoop]
      simp only [if_neg h1, if_neg n2, if_neg n3, if_neg n4, if_neg n5, if_neg h6]
      rw [ih (cur ++ [c]) spans (fun d hd => h d (List.mem_cons_of_mem _ hd))]
      simp

/-- C9: a line containing none of the markup characters
(backtick, `*`, `_`, `~`, `!`, `[`), formatted by the inline formatter and
then flattened, is returned exactly. -/
theorem plain_line_round_trip (line : List Char)
    (hm : ∀ c ∈ line, ¬ (c = backtickChar ∨ c = '*' ∨ c = '_' ∨ c = '~' ∨ c = '!' ∨ c = '[')) :
    flattenLine (parse_inline_formatting line) = line := by
  unfold parse_inline_formatting
  rw [inlineLoop_no_markup line [] [] hm]
  simp only [List.nil_append]
  unfold flushCurrent
  by_cases hl : line.isEmpty
  · rw [List.isEmpty_iff] at hl
    subst hl
    simp [flattenLine]
  · simp [hl, flattenLine]

/-- Witness for C9 on a concrete markup-free line. -/
theorem plain_line_round_trip_witness :
    flattenLine (parse_inline_formatting "hello, world.".toList) = "hello, world.".toList :=
  plain_line_round_trip _ (by decide)

end Mdr
